import Mathlib

/-!
Shallow embedding of the core of the `duplicate-finder` repository
(`src/lib.rs`, `src/scanner.rs`): the data model (`Cli`, `FileInfo`,
`DuplicateGroup`, `ScanResult`, `DuplicateFinderError`), metadata
extraction (`FileInfo::from_path`), the traversal engine
(`FileScanner::discover_files` with its explicit stack), the size filter
(`FileScanner::file_passes_size_filter`), configuration validation
(`FileScanner::validate_config`), grouping
(`FileScanner::group_duplicates`) and the orchestrator
(`FileScanner::scan`).

Modelling conventions:
* `u64` / `usize` values are modelled as `Nat`.  The arithmetic on sizes
  (`size * files.len()`, `size * (files.len() - 1)`) is modelled without
  the 2^64 wrap: the quantities are byte counts of real files and the
  spec defines them mathematically.
* `SystemTime` is modelled as `Nat` (instants ordered as the Rust `Ord`
  instance orders them); `SystemTime::UNIX_EPOCH` is `unixEpoch = 0`.
* Paths are `String`s; `parent.join(name)` is `parent ++ "/" ++ name`.
* The filesystem seen by one scan is an immutable tree (`FsNode`,
  `Filesystem`).  A directory entry records, for each name, whether the
  entry is a regular file, a directory, or a symlink (to a file or to a
  directory).  `DirEntry::metadata` in tokio/std does **not** traverse
  symlinks ("This function will not traverse symlinks if this entry
  points at a symlink"), so in the model the metadata of a symlink entry
  reports neither `is_dir` nor `is_file`.
* Fallible syscalls are modelled by handing their results to the pure
  function as `Option` arguments (`from_path`), or by letting the model
  filesystem always answer (the per-item error paths in
  `discover_files`/`process_files` only drop items, which the claims do
  not touch).
* The `while let Some(..) = dir_stack.pop()` loop of `discover_files` is
  modelled with an explicit fuel argument that decreases once per popped
  stack item; the Rust loop terminates on every finite filesystem, and
  every claim proved below either holds for all fuel values or is
  evaluated at a concrete filesystem with ample fuel.
* Concurrency (semaphore, batching, task spawning) only affects the
  completion order of hashing, which `process_files` erases by pushing
  results in candidate order (`for task in tasks.drain(..)` awaits the
  batch in submission order); the model maps `from_path` over the
  candidate list in order.
* The progress bar, logging, `scan_duration` (wall clock) and the output
  formatter are outside the claims and are not modelled.
-/

/-- Model of `SystemTime::UNIX_EPOCH` (`lib.rs`): the zero instant. -/
def unixEpoch : Nat := 0

/-- Model of the `Cli` configuration structure (`lib.rs`).  The fields
`output_format` and `output_file` only drive the external formatter and
are omitted; `threads` and `verbose` are kept but only feed the
semaphore width and the progress bar, which the model erases. -/
structure Cli where
  directory : String
  min_size : Nat
  max_size : Nat
  include_hidden : Bool
  exclude_empty : Bool
  threads : Nat
  verbose : Bool
  follow_symlinks : Bool
  max_depth : Nat
deriving Repr, DecidableEq

/-- Model of `FileInfo` (`lib.rs`): path, size, SHA-256 digest (kept
abstract as the `String` the hasher would produce), modified time,
optional creation time. -/
structure FileInfo where
  path : String
  size : Nat
  hash : String
  modified : Nat
  created : Option Nat
deriving Repr, DecidableEq

/-- Model of `DuplicateGroup` (`lib.rs`). -/
structure DuplicateGroup where
  hash : String
  size : Nat
  files : List FileInfo
  total_size : Nat
  wasted_space : Nat
deriving Repr, DecidableEq

/-- Model of `ScanResult` (`lib.rs`); `scan_duration` (wall-clock time)
is not modelled. -/
structure ScanResult where
  total_files : Nat
  duplicate_groups : List DuplicateGroup
  total_duplicates : Nat
  total_wasted_space : Nat
  scanned_directory : String
deriving Repr, DecidableEq

/-- Model of `DuplicateFinderError` (`lib.rs`).  The `Io` payload is the
error's message. -/
inductive DuplicateFinderError where
  | IoError (msg : String)
  | PermissionDenied (path : String)
  | PathNotFound (path : String)
  | InvalidSizeFilter (min : Nat) (max : Nat)
  | HashCalculationError (path : String)
  | SymlinkLoop (path : String)
  | MaxDepthExceeded (path : String) (max_depth : Nat)
deriving Repr, DecidableEq

/-- What `fs::metadata` reports about one file: `len()`, `modified()`
(`none` models the `Err` case of the `Result`), `created().ok()`. -/
structure RawMetadata where
  len : Nat
  modified : Option Nat
  created : Option Nat
deriving Repr, DecidableEq

/-- One node of the immutable filesystem tree seen by a scan.  A
`file` carries the metadata `fs::metadata` would report and the hex
digest the streaming SHA-256 hasher would compute over its content.  A
symlink entry records what it resolves to; per the tokio/std contract,
`DirEntry::metadata` on a symlink entry does not traverse it. -/
inductive FsNode where
  | file (meta : RawMetadata) (digest : String)
  | dir (entries : List (String × FsNode))
  | symlinkToFile (meta : RawMetadata) (digest : String)
  | symlinkToDir (entries : List (String × FsNode))

/-- Directory listing: entry name paired with the entry's node. -/
abbrev DirEntryList := List (String × FsNode)

/-- The filesystem a scan runs against: whether the configured root
directory exists (`Path::exists`), and the root's directory listing. -/
structure Filesystem where
  root_exists : Bool
  root_entries : DirEntryList

/-- `Path::is_symlink` for a directory entry of the model. -/
def FsNode.isSymlink : FsNode → Bool
  | .symlinkToFile _ _ => true
  | .symlinkToDir _ => true
  | _ => false

/-- Model of `FileScanner::file_passes_size_filter` (`scanner.rs`
lines 270-287), checks in source order: empty-file exclusion, minimum
size, maximum size (0 meaning no limit). -/
def file_passes_size_filter (config : Cli) (size : Nat) : Bool :=
  if config.exclude_empty = true ∧ size = 0 then false
  else if size < config.min_size then false
  else if 0 < config.max_size ∧ config.max_size < size then false
  else true

/-- Model of `FileScanner::is_hidden` (`scanner.rs`): the basename
starts with a dot (`name.starts_with('.')`, a check of the first
character). -/
def is_hidden (name : String) : Bool :=
  match name.data with
  | [] => false
  | c :: _ => c = '.'

/-- Model of `FileScanner::validate_config` (`scanner.rs` lines
119-136): the root must exist, and when `max_size` is nonzero,
`min_size` must not exceed it. -/
def validate_config (config : Cli) (fs : Filesystem) :
    Except DuplicateFinderError Unit :=
  if fs.root_exists = false then
    .error (.PathNotFound config.directory)
  else if 0 < config.max_size ∧ config.max_size < config.min_size then
    .error (.InvalidSizeFilter config.min_size config.max_size)
  else
    .ok ()

/-- A candidate emitted by discovery: the path `discover_files` pushes
into `file_paths`, together with what the (immutable) filesystem will
answer when `FileInfo::from_path` later stats and hashes that path. -/
structure Candidate where
  path : String
  meta : RawMetadata
  digest : String
deriving Repr, DecidableEq

/-- One pass of the inner `while let Some(entry_result) = ...` loop of
`discover_files` (`scanner.rs` lines 202-242) over a directory's
entries: returns the files pushed into `file_paths` and the
subdirectories buffered into `new_directories` (each as stack item
`(path, listing, depth + 1)`), both in entry order.  Per entry, in
source order: hidden-name skip, symlink skip when `follow_symlinks` is
off, then dispatch on the entry's (non-traversing) metadata — a symlink
entry is neither a directory nor a regular file there. -/
def processEntries (config : Cli) (dirPath : String) (depth : Nat) :
    DirEntryList → List Candidate × List (String × DirEntryList × Nat)
  | [] => ([], [])
  | (name, node) :: rest =>
    let tailRes := processEntries config dirPath depth rest
    if config.include_hidden = false ∧ is_hidden name = true then
      tailRes
    else if node.isSymlink = true ∧ config.follow_symlinks = false then
      tailRes
    else
      match node with
      | .dir es =>
          (tailRes.1, (dirPath ++ "/" ++ name, es, depth + 1) :: tailRes.2)
      | .file meta digest =>
          if file_passes_size_filter config meta.len = true then
            (⟨dirPath ++ "/" ++ name, meta, digest⟩ :: tailRes.1, tailRes.2)
          else
            tailRes
      | .symlinkToFile _ _ => tailRes
      | .symlinkToDir _ => tailRes

/-- The `MAX_PENDING_DIRS` ceiling of `discover_files`. -/
def MAX_PENDING_DIRS : Nat := 10000

/-- The outer `while let Some((current_dir, current_depth)) =
dir_stack.pop()` loop of `discover_files` (`scanner.rs` lines 165-249).
The stack is a list whose head is the top; one unit of fuel is spent
per popped item (the Rust loop terminates on every finite filesystem).
After the pop: break when more than `MAX_PENDING_DIRS` items remain,
skip the item when the depth limit is reached, otherwise process its
entries, append the discovered files, and push the buffered
subdirectories (the Rust code pushes them in reverse, so they come off,
and hence sit at the head here, in entry order). -/
def discoverLoop (config : Cli) :
    Nat → List (String × DirEntryList × Nat) → List Candidate →
    List Candidate
  | _, [], acc => acc
  | 0, _ :: _, acc => acc
  | fuel + 1, (dirPath, entries, depth) :: rest, acc =>
    if MAX_PENDING_DIRS < rest.length then acc
    else if 0 < config.max_depth ∧ config.max_depth ≤ depth then
      discoverLoop config fuel rest acc
    else
      let pr := processEntries config dirPath depth entries
      discoverLoop config fuel (pr.2 ++ rest) (acc ++ pr.1)

/-- Model of `FileScanner::discover_files` (`scanner.rs` lines
154-259): run the stack loop seeded with `(root, 0)`. -/
def discover_files (fuel : Nat) (config : Cli) (fs : Filesystem) :
    List Candidate :=
  discoverLoop config fuel [(config.directory, fs.root_entries, 0)] []

/-- Model of `FileInfo::from_path` (`lib.rs` lines 289-324), as a pure
function of the syscall outcomes: `metadata` is the result of
`fs::metadata(path)` (`none` for an error), `digestResult` the result
of `calculate_file_hash` (`none` for an error).  A missing modified
time is replaced by `unixEpoch` (`metadata.modified().unwrap_or(
SystemTime::UNIX_EPOCH)`); a metadata or hashing failure makes the
whole call fail. -/
def from_path (path : String) (metadata : Option RawMetadata)
    (digestResult : Option String) : Option FileInfo :=
  match metadata with
  | none => none
  | some m =>
    match digestResult with
    | none => none
    | some h =>
      some { path := path, size := m.len, hash := h,
             modified := m.modified.getD unixEpoch, created := m.created }

/-- Model of `FileScanner::process_files` (`scanner.rs` lines
293-345): each candidate is hashed; failures are dropped.  Batching and
the semaphore only bound concurrency; results are pushed in candidate
order, and in the model the immutable filesystem answers every syscall
with the candidate's recorded metadata and digest. -/
def process_files (candidates : List Candidate) : List FileInfo :=
  candidates.filterMap (fun c => from_path c.path (some c.meta) (some c.digest))

/-- Comparison key of `files.sort_by_key(|f| f.modified)`. -/
def modLe (a b : FileInfo) : Prop := a.modified ≤ b.modified

instance : DecidableRel modLe := fun a b =>
  inferInstanceAs (Decidable (a.modified ≤ b.modified))

instance : IsTotal FileInfo modLe := ⟨fun a b => Nat.le_total a.modified b.modified⟩

instance : IsTrans FileInfo modLe := ⟨fun _ _ _ h1 h2 => Nat.le_trans h1 h2⟩

/-- The stable ascending sort by modified time used inside
`group_duplicates` (`files.sort_by_key(|f| f.modified)`); insertion
sort is stable, like Rust's `sort_by_key`. -/
def sortByModified (files : List FileInfo) : List FileInfo :=
  List.insertionSort modLe files

/-- Body of the `groups.into_iter().map(..)` closure of
`group_duplicates` (`scanner.rs` lines 360-378): sort the bucket by
modified time, take the first member's size (0 for an empty bucket) as
the group size, and derive `total_size` and `wasted_space`. -/
def mkGroup (hashKey : String) (bucket : List FileInfo) : DuplicateGroup :=
  let files := sortByModified bucket
  let size := (files.head?.map (fun f => f.size)).getD 0
  { hash := hashKey
    size := size
    files := files
    total_size := size * files.length
    wasted_space := if 1 < files.length then size * (files.length - 1) else 0 }

/-- Model of `FileScanner::group_duplicates` (`scanner.rs` lines
348-381): bucket the records by digest (a `HashMap<String, Vec<_>>`
whose per-key `Vec` keeps insertion order; the map's iteration order is
arbitrary in Rust, fixed here as last-first-occurrence order via
`dedup`, which no claim observes), then build one `DuplicateGroup` per
bucket. -/
def group_duplicates (file_infos : List FileInfo) : List DuplicateGroup :=
  ((file_infos.map (fun f => f.hash)).dedup).map
    (fun h => mkGroup h (file_infos.filter (fun f => f.hash = h)))

/-- Model of `FileScanner::scan` (`scanner.rs` lines 57-116): validate
the configuration, then discover, hash, group, and aggregate.  The
aggregate sums (`total_files`, `total_duplicates`,
`total_wasted_space`) are computed over **all** groups returned by
`group_duplicates`, and only the `duplicate_groups` field filters to
groups with more than one file, exactly as the Rust struct literal
does. -/
def scan (fuel : Nat) (config : Cli) (fs : Filesystem) :
    Except DuplicateFinderError ScanResult :=
  match validate_config config fs with
  | .error e => .error e
  | .ok _ =>
    let file_paths := discover_files fuel config fs
    let file_infos := process_files file_paths
    let duplicate_groups := group_duplicates file_infos
    .ok {
      total_files := (duplicate_groups.map (fun g => g.files.length)).sum
      total_duplicates := (duplicate_groups.map
        (fun g => if 1 < g.files.length then g.files.length - 1 else 0)).sum
      total_wasted_space := (duplicate_groups.map (fun g => g.wasted_space)).sum
      duplicate_groups := duplicate_groups.filter
        (fun g => decide (1 < g.files.length))
      scanned_directory := config.directory }

/-!
Concrete fixtures used by the counterexamples and the witnesses below.
-/

/-- A minimal configuration: scan `root` with every filter at its
default (no size bounds, hidden files skipped, symlinks skipped,
unlimited depth). -/
def cfgPlain : Cli :=
  { directory := "root", min_size := 0, max_size := 0, include_hidden := false,
    exclude_empty := false, threads := 0, verbose := false,
    follow_symlinks := false, max_depth := 0 }

/-- `cfgPlain` with `follow_symlinks` switched on. -/
def cfgFollow : Cli := { cfgPlain with follow_symlinks := true }

/-- A root holding two files with distinct contents (distinct digests):
every digest in this scan is unique. -/
def fsTwoUnique : Filesystem :=
  ⟨true, [("a", .file ⟨5, some 1, none⟩ "ha"),
          ("b", .file ⟨6, some 2, none⟩ "hb")]⟩

/-- A root holding a symlink to a directory (whose target contains a
regular file), a symlink to a regular file, and one plain regular
file. -/
def fsWithSymlinks : Filesystem :=
  ⟨true,
   [("linkdir", .symlinkToDir [("inner", .file ⟨3, some 1, none⟩ "hInner")]),
    ("linkfile", .symlinkToFile ⟨4, some 2, none⟩ "hLink"),
    ("plain", .file ⟨5, some 3, none⟩ "hPlain")]⟩

/-- A root holding two files with identical contents (same digest,
same size), modified at times 1 and 2. -/
def fsDup : Filesystem :=
  ⟨true, [("a", .file ⟨5, some 1, none⟩ "h"),
          ("b", .file ⟨5, some 2, none⟩ "h")]⟩

/-- A filesystem whose configured root directory does not exist. -/
def fsNoRoot : Filesystem :=
  ⟨false, [("x", .file ⟨1, some 1, none⟩ "hx")]⟩

/-- The two hashed records a scan of `fsDup` produces. -/
def faRoot : FileInfo := ⟨"root/a", 5, "h", 1, none⟩

/-- Second record of the `fsDup` scan. -/
def fbRoot : FileInfo := ⟨"root/b", 5, "h", 2, none⟩

/-- The duplicate group a scan of `fsDup` produces. -/
def gDup : DuplicateGroup := ⟨"h", 5, [faRoot, fbRoot], 10, 5⟩

/-- The `ScanResult` of scanning `fsDup` under `cfgPlain`. -/
def resDup : ScanResult :=
  { total_files := 2, duplicate_groups := [gDup], total_duplicates := 1,
    total_wasted_space := 5, scanned_directory := "root" }

/-- The `ScanResult` of scanning `fsTwoUnique` under `cfgPlain`: both
digests are unique, so no group survives, yet `total_files = 2`. -/
def resTwoUnique : ScanResult :=
  { total_files := 2, duplicate_groups := [], total_duplicates := 0,
    total_wasted_space := 0, scanned_directory := "root" }

/-- Two records sharing a digest but with different sizes and equal
modified times (what a digest collision would produce). -/
def fColA : FileInfo := ⟨"pA", 1, "hc", 5, none⟩

/-- Companion of `fColA`: same digest, different size, same time. -/
def fColB : FileInfo := ⟨"pB", 2, "hc", 5, none⟩

/-- Two records sharing a digest, equal sizes, distinct times. -/
def fD1 : FileInfo := ⟨"d1", 5, "hd", 1, none⟩

/-- Companion of `fD1`. -/
def fD2 : FileInfo := ⟨"d2", 5, "hd", 2, none⟩

/-- The group built from `fD1`/`fD2`. -/
def gD : DuplicateGroup := ⟨"hd", 5, [fD1, fD2], 10, 5⟩

/-- A record whose modified time could not be read, so it carries the
Unix epoch. -/
def fE1 : FileInfo := ⟨"e1", 5, "he", 0, none⟩

/-- Companion of `fE1` with a normal (positive) timestamp. -/
def fE2 : FileInfo := ⟨"e2", 5, "he", 7, none⟩

/-- The group built from `fE1`/`fE2`. -/
def gE : DuplicateGroup := ⟨"he", 5, [fE1, fE2], 10, 5⟩

/-!
Helper lemmas about the embedded definitions.
-/

/-- The group built by `mkGroup` stores its bucket sorted by modified
time. -/
theorem mkGroup_files (h : String) (b : List FileInfo) :
    (mkGroup h b).files = sortByModified b := rfl

/-- The group built by `mkGroup` is keyed by the bucket's digest. -/
theorem mkGroup_hash (h : String) (b : List FileInfo) :
    (mkGroup h b).hash = h := rfl

/-- The group size is the first sorted member's size (0 if none). -/
theorem mkGroup_size (h : String) (b : List FileInfo) :
    (mkGroup h b).size =
      (((sortByModified b).head?.map (fun f => f.size)).getD 0) := rfl

/-- `total_size` is the group size times the member count. -/
theorem mkGroup_total_size (h : String) (b : List FileInfo) :
    (mkGroup h b).total_size = (mkGroup h b).size * (mkGroup h b).files.length := rfl

/-- `wasted_space` is size times (count - 1) for a real duplicate
group, 0 otherwise. -/
theorem mkGroup_wasted_space (h : String) (b : List FileInfo) :
    (mkGroup h b).wasted_space =
      if 1 < (mkGroup h b).files.length then
        (mkGroup h b).size * ((mkGroup h b).files.length - 1)
      else 0 := rfl

/-- The sort used by grouping permutes its input. -/
theorem sortByModified_perm (l : List FileInfo) : (sortByModified l).Perm l :=
  List.perm_insertionSort modLe l

/-- The sort used by grouping sorts by modified time. -/
theorem sortByModified_sorted (l : List FileInfo) :
    List.Sorted modLe (sortByModified l) :=
  List.sorted_insertionSort modLe l

/-- Membership characterisation of `group_duplicates`. -/
theorem mem_group_duplicates {files : List FileInfo} {g : DuplicateGroup} :
    g ∈ group_duplicates files ↔
      ∃ h ∈ (files.map (fun f => f.hash)).dedup,
        g = mkGroup h (files.filter (fun f => f.hash = h)) := by
  unfold group_duplicates
  constructor
  · intro hg
    obtain ⟨h, hh, he⟩ := List.mem_map.1 hg
    exact ⟨h, hh, he.symm⟩
  · rintro ⟨h, hh, rfl⟩
    exact List.mem_map.2 ⟨h, hh, rfl⟩

/-- Every member of a produced group is one of the input records. -/
theorem mem_files_of_mem_group {files : List FileInfo} {g : DuplicateGroup}
    {f : FileInfo} (hg : g ∈ group_duplicates files) (hf : f ∈ g.files) :
    f ∈ files := by
  obtain ⟨h, _, rfl⟩ := mem_group_duplicates.1 hg
  rw [mkGroup_files] at hf
  have h1 : f ∈ files.filter (fun x => x.hash = h) :=
    (sortByModified_perm _).mem_iff.mp hf
  exact (List.mem_filter.1 h1).1

/-- A record produced by `process_files` comes from a candidate and
copies that candidate's metadata and digest. -/
theorem mem_process_files {cands : List Candidate} {f : FileInfo}
    (hf : f ∈ process_files cands) :
    ∃ c ∈ cands,
      f = { path := c.path, size := c.meta.len, hash := c.digest,
            modified := c.meta.modified.getD unixEpoch,
            created := c.meta.created } := by
  unfold process_files at hf
  obtain ⟨c, hc, he⟩ := List.mem_filterMap.1 hf
  refine ⟨c, hc, ?_⟩
  simp only [from_path, Option.some.injEq] at he
  exact he.symm

/-- The head of a list determined by `head?` is a member. -/
theorem mem_of_head?_eq {l : List FileInfo} {a : FileInfo}
    (h : l.head? = some a) : a ∈ l := by
  cases l with
  | nil => cases h
  | cons b t =>
    rw [List.head?_cons] at h
    obtain rfl := Option.some.inj h
    exact List.mem_cons_self b t

/-- In a list sorted by modified time, the head has the least modified
time. -/
theorem sorted_head_le {l : List FileInfo} (hs : List.Sorted modLe l)
    {hd : FileInfo} (hh : l.head? = some hd) :
    ∀ f ∈ l, hd.modified ≤ f.modified := by
  cases l with
  | nil => cases hh
  | cons a t =>
    rw [List.head?_cons] at hh
    obtain rfl := Option.some.inj hh
    intro f hf
    rcases List.mem_cons.1 hf with rfl | hmem
    · exact Nat.le_refl _
    · exact List.rel_of_sorted_cons hs f hmem

/-- Unfolding a successful `scan`: the result's fields in terms of the
pipeline stages. -/
theorem scan_ok_fields {fuel : Nat} {config : Cli} {fs : Filesystem}
    {r : ScanResult} (h : scan fuel config fs = .ok r) :
    r.duplicate_groups =
      (group_duplicates (process_files (discover_files fuel config fs))).filter
        (fun g => decide (1 < g.files.length)) ∧
    r.total_files =
      ((group_duplicates (process_files (discover_files fuel config fs))).map
        (fun g => g.files.length)).sum ∧
    r.total_wasted_space =
      ((group_duplicates (process_files (discover_files fuel config fs))).map
        (fun g => g.wasted_space)).sum := by
  unfold scan at h
  cases hv : validate_config config fs with
  | error e => rw [hv] at h; cases h
  | ok u =>
    rw [hv] at h
    simp only [Except.ok.injEq] at h
    subst h
    exact ⟨rfl, rfl, rfl⟩

/-- Every candidate emitted while processing one directory's entries
passed the size filter. -/
theorem processEntries_passes (config : Cli) (dirPath : String) (depth : Nat) :
    ∀ (entries : DirEntryList) (c : Candidate),
      c ∈ (processEntries config dirPath depth entries).1 →
      file_passes_size_filter config c.meta.len = true := by
  intro entries
  induction entries with
  | nil => intro c hc; simp [processEntries] at hc
  | cons e rest ih =>
    obtain ⟨name, node⟩ := e
    intro c hc
    cases node with
    | dir es =>
      simp only [processEntries] at hc
      split at hc
      · exact ih c hc
      · split at hc
        · exact ih c hc
        · exact ih c hc
    | file meta digest =>
      simp only [processEntries] at hc
      split at hc
      · exact ih c hc
      · split at hc
        · exact ih c hc
        · split at hc
          · have hc' : c ∈
                (⟨dirPath ++ "/" ++ name, meta, digest⟩ : Candidate) ::
                  (processEntries config dirPath depth rest).1 := hc
            rcases List.mem_cons.1 hc' with rfl | h2
            · assumption
            · exact ih c h2
          · exact ih c hc
    | symlinkToFile m d =>
      simp only [processEntries] at hc
      split at hc
      · exact ih c hc
      · split at hc
        · exact ih c hc
        · exact ih c hc
    | symlinkToDir es =>
      simp only [processEntries] at hc
      split at hc
      · exact ih c hc
      · split at hc
        · exact ih c hc
        · exact ih c hc

/-- Loop invariant of the traversal stack loop: every candidate it
accumulates passed the size filter. -/
theorem discoverLoop_passes (config : Cli) :
    ∀ (fuel : Nat) (stack : List (String × DirEntryList × Nat))
      (acc : List Candidate),
      (∀ c ∈ acc, file_passes_size_filter config c.meta.len = true) →
      ∀ c ∈ discoverLoop config fuel stack acc,
        file_passes_size_filter config c.meta.len = true := by
  intro fuel
  induction fuel with
  | zero =>
    intro stack acc hacc c hc
    cases stack with
    | nil => exact hacc c hc
    | cons top rest => exact hacc c hc
  | succ n ih =>
    intro stack acc hacc c hc
    cases stack with
    | nil => exact hacc c hc
    | cons top rest =>
      obtain ⟨dirPath, entries, depth⟩ := top
      simp only [discoverLoop] at hc
      split at hc
      · exact hacc c hc
      · split at hc
        · exact ih rest acc hacc c hc
        · refine ih _ _ ?_ c hc
          intro c' hc'
          rcases List.mem_append.1 hc' with h1 | h2
          · exact hacc c' h1
          · exact processEntries_passes config dirPath depth entries c' h2

/-- Every candidate `discover_files` emits passed the size filter. -/
theorem discover_files_passes (fuel : Nat) (config : Cli) (fs : Filesystem) :
    ∀ c ∈ discover_files fuel config fs,
      file_passes_size_filter config c.meta.len = true :=
  discoverLoop_passes config fuel _ []
    (fun c hc => absurd hc (List.not_mem_nil c))

/-- Splitting a list's length by a predicate. -/
theorem length_filter_split (p : FileInfo → Bool) (files : List FileInfo) :
    (files.filter p).length + (files.filter (fun f => !p f)).length
      = files.length := by
  induction files with
  | nil => rfl
  | cons a l ih =>
    cases hpa : p a <;> simp [List.filter_cons, hpa] <;> omega

/-- Summing bucket sizes over a duplicate-free key list covering every
record gives back the number of records. -/
theorem sum_counts :
    ∀ (keys : List String), keys.Nodup → ∀ (files : List FileInfo),
      (∀ f ∈ files, f.hash ∈ keys) →
      (keys.map (fun h => (files.filter (fun f => f.hash = h)).length)).sum
        = files.length := by
  intro keys
  induction keys with
  | nil =>
    intro _ files hall
    have : files = [] :=
      List.eq_nil_iff_forall_not_mem.2
        (fun f hf => absurd (hall f hf) (List.not_mem_nil _))
    subst this
    rfl
  | cons k ks ih =>
    intro hnd files hall
    have hk : k ∉ ks := (List.nodup_cons.1 hnd).1
    have hnd' : ks.Nodup := (List.nodup_cons.1 hnd).2
    simp only [List.map_cons, List.sum_cons]
    have hmap :
        (ks.map (fun h => (files.filter (fun f => f.hash = h)).length)) =
        (ks.map (fun h =>
          ((files.filter (fun f => !(decide (f.hash = k)))).filter
            (fun f => f.hash = h)).length)) := by
      refine List.map_congr_left ?_
      intro h hh
      have hne : h ≠ k := fun he => hk (he ▸ hh)
      rw [List.filter_filter]
      congr 1
      refine (List.filter_congr ?_).symm
      intro a _
      by_cases hah : a.hash = h
      · simp [hah, hne]
      · simp [hah]
    rw [hmap]
    have hcov : ∀ f ∈ files.filter (fun f => !(decide (f.hash = k))),
        f.hash ∈ ks := by
      intro f hf
      obtain ⟨hmem, hne⟩ := List.mem_filter.1 hf
      have := hall f hmem
      rcases List.mem_cons.1 this with he | hin
      · exfalso
        simp [he] at hne
      · exact hin
    rw [ih hnd' _ hcov]
    exact length_filter_split (fun f => decide (f.hash = k)) files

/-- The group sizes of `group_duplicates` partition the input records:
summing `files.length` over all buckets (singletons included) counts
every record exactly once. -/
theorem group_duplicates_length_sum (files : List FileInfo) :
    ((group_duplicates files).map (fun g => g.files.length)).sum
      = files.length := by
  unfold group_duplicates
  rw [List.map_map]
  have step :
      ((files.map (fun f => f.hash)).dedup.map
        ((fun g => g.files.length) ∘
          (fun h => mkGroup h (files.filter (fun f => f.hash = h))))) =
      ((files.map (fun f => f.hash)).dedup.map
        (fun h => (files.filter (fun f => f.hash = h)).length)) := by
    refine List.map_congr_left ?_
    intro h _
    show (mkGroup h (files.filter (fun f => f.hash = h))).files.length = _
    rw [mkGroup_files]
    exact (sortByModified_perm _).length_eq
  rw [step]
  exact sum_counts _ (List.nodup_dedup _) files
    (fun f hf => List.mem_dedup.2 (List.mem_map.2 ⟨f, hf, rfl⟩))

/-- Dropping groups whose statistic is 0 does not change the sum of the
statistic. -/
theorem sum_wasted_filter (l : List DuplicateGroup)
    (h0 : ∀ g ∈ l, g.files.length ≤ 1 → g.wasted_space = 0) :
    ((l.filter (fun g => decide (1 < g.files.length))).map
      (fun g => g.wasted_space)).sum =
    (l.map (fun g => g.wasted_space)).sum := by
  induction l with
  | nil => rfl
  | cons g t ih =>
    have ht := ih (fun g' hg' => h0 g' (List.mem_cons_of_mem _ hg'))
    by_cases hg : 1 < g.files.length
    · simp [List.filter_cons, hg, ht]
    · have hz : g.wasted_space = 0 :=
        h0 g (List.mem_cons_self _ _) (by omega)
      simp [List.filter_cons, hg, ht, hz]

/-- Strict comparison of modified times. -/
def modLt (a b : FileInfo) : Prop := a.modified < b.modified

instance : IsAntisymm FileInfo modLt :=
  ⟨fun _ _ h1 h2 => absurd (Nat.lt_trans h1 h2) (Nat.lt_irrefl _)⟩

/-- A list sorted by modified time whose modified times are pairwise
distinct is strictly sorted. -/
theorem sorted_lt_of_pairwise_ne {l : List FileInfo}
    (hs : List.Sorted modLe l)
    (hne : l.Pairwise (fun a b => a.modified ≠ b.modified)) :
    List.Sorted modLt l :=
  (List.Pairwise.and hs hne).imp (fun h => Nat.lt_of_le_of_ne h.1 h.2)

/-- Sorting by modified time is insensitive to the input order when the
modified times are pairwise distinct. -/
theorem sortByModified_eq_of_perm {b1 b2 : List FileInfo} (hp : b1.Perm b2)
    (hd : b1.Pairwise (fun a b => a.modified ≠ b.modified)) :
    sortByModified b1 = sortByModified b2 := by
  have hperm : (sortByModified b1).Perm (sortByModified b2) :=
    (sortByModified_perm b1).trans (hp.trans (sortByModified_perm b2).symm)
  have hd1 : (sortByModified b1).Pairwise
      (fun a b => a.modified ≠ b.modified) :=
    ((sortByModified_perm b1).pairwise_iff (fun h => Ne.symm h)).2 hd
  have hd2 : (sortByModified b2).Pairwise
      (fun a b => a.modified ≠ b.modified) :=
    (hperm.pairwise_iff (fun h => Ne.symm h)).1 hd1
  exact List.eq_of_perm_of_sorted hperm
    (sorted_lt_of_pairwise_ne (sortByModified_sorted b1) hd1)
    (sorted_lt_of_pairwise_ne (sortByModified_sorted b2) hd2)

/-- Buckets whose sorted contents agree produce equal groups. -/
theorem mkGroup_congr {b1 b2 : List FileInfo} (h : String)
    (he : sortByModified b1 = sortByModified b2) :
    mkGroup h b1 = mkGroup h b2 := by
  unfold mkGroup
  rw [he]

/-- The digests of the produced groups are exactly the distinct digests
of the input records. -/
theorem group_duplicates_hashes (files : List FileInfo) :
    (group_duplicates files).map (fun g => g.hash)
      = (files.map (fun f => f.hash)).dedup := by
  unfold group_duplicates
  rw [List.map_map]
  have hcomp :
      ((fun g => g.hash) ∘
        (fun h => mkGroup h (files.filter (fun f => f.hash = h)))) =
      (fun h => h) := rfl
  rw [hcomp]
  exact List.map_id' _

/-!
The claims.
-/

/-- C1, counterexample: scanning a root that holds two files with
distinct digests (so every digest is unique) produces a result with no
surviving duplicate group yet `total_files = 2`, because the Rust
struct literal sums `g.files.len()` over **all** buckets before the
`len > 1` filter is applied; the claim says every unique-digest file
contributes 0, which would force `total_files = 0` here. -/
theorem c1_counterexample :
    (scan 10 cfgPlain fsTwoUnique).toOption.map
      (fun r => (r.total_files, r.duplicate_groups)) = some (2, []) := by
  decide

/-- C1, amended: `total_files` counts every successfully hashed file,
whether or not its digest was unique — summing member counts over all
digest buckets returns the number of hashed records, and a successful
scan's `total_files` equals the number of records the hashing phase
produced. -/
theorem c1_total_files_counts_all_hashed :
    (∀ files : List FileInfo,
        ((group_duplicates files).map (fun g => g.files.length)).sum
          = files.length)
  ∧ (∀ (fuel : Nat) (config : Cli) (fs : Filesystem) (r : ScanResult),
        scan fuel config fs = .ok r →
        r.total_files
          = (process_files (discover_files fuel config fs)).length) := by
  constructor
  · exact group_duplicates_length_sum
  · intro fuel config fs r h
    rw [(scan_ok_fields h).2.1]
    exact group_duplicates_length_sum _

/-- C1, witness: the amended claim applied to the concrete
two-unique-files scan. -/
theorem c1_total_files_counts_all_hashed_witness :
    resTwoUnique.total_files
      = (process_files (discover_files 10 cfgPlain fsTwoUnique)).length :=
  c1_total_files_counts_all_hashed.2 10 cfgPlain fsTwoUnique resTwoUnique rfl

/-- C2: with `follow_symlinks = true` the scanner still discovers
neither the target of a symlink to a directory (`root/linkdir/inner`
never appears) nor a symlink to a regular file (`root/linkfile` never
appears) — `DirEntry::metadata` does not traverse symlinks, so a
symlink entry is neither a directory nor a regular file and falls
through both branches; the output is identical to the
`follow_symlinks = false` run, which the claim says must differ. -/
theorem c2_symlinks_never_followed :
    (discover_files 10 cfgFollow fsWithSymlinks).map (fun c => c.path)
        = ["root/plain"]
    ∧ (discover_files 10 cfgPlain fsWithSymlinks).map (fun c => c.path)
        = ["root/plain"] := by
  constructor <;> decide

/-- C3, counterexample: two records sharing a digest but with sizes 1
and 2 produce a single group whose `size` field is 1 while a member of
size 2 sits in the group; `group_duplicates` returns the mismatched
bucket silently (its return type has no error or warning channel, and
no check compares member sizes). -/
theorem c3_counterexample :
    (group_duplicates [fColA, fColB]).map
      (fun g => (g.size, g.files.map (fun f => f.size))) = [(1, [1, 2])] := by
  decide

/-- C3, amended: the group's `size` is the size of the first member
after the modified-time sort (`files.first().map(|f| f.size)
.unwrap_or(0)`); only when all members of the bucket share one size —
the expected situation absent digest collisions — does it equal every
member's size, and a mismatched bucket is silently tolerated. -/
theorem c3_group_size_from_first_member :
    ∀ (files : List FileInfo), ∀ g ∈ group_duplicates files,
      g.size = ((g.files.head?.map (fun f => f.size)).getD 0)
      ∧ ((∀ a ∈ g.files, ∀ b ∈ g.files, a.size = b.size) →
          ∀ f ∈ g.files, g.size = f.size) := by
  intro files g hg
  obtain ⟨h, -, rfl⟩ := mem_group_duplicates.1 hg
  refine ⟨by rw [mkGroup_size, mkGroup_files], ?_⟩
  intro hall f hf
  cases hhd : (mkGroup h (files.filter (fun f => f.hash = h))).files.head? with
  | none =>
    rw [List.head?_eq_none_iff] at hhd
    rw [hhd] at hf
    cases hf
  | some hd =>
    have hdmem := mem_of_head?_eq hhd
    have hsz : (mkGroup h (files.filter (fun f => f.hash = h))).size
        = hd.size := by
      rw [mkGroup_files] at hhd
      rw [mkGroup_size, hhd]
      rfl
    rw [hsz]
    exact hall hd hdmem f hf

/-- C3, witness: the amended claim applied to a bucket of two
equal-sized records. -/
theorem c3_group_size_from_first_member_witness : gD.size = fD1.size :=
  (c3_group_size_from_first_member [fD1, fD2] gD (by decide)).2
    (by decide) fD1 (by decide)

/-- C4: `file_passes_size_filter` accepts a size exactly when the
empty-file exclusion does not bite, the size is at least `min_size`,
and either `max_size` is 0 (no limit) or the size is at most
`max_size`; consequently every discovered candidate passed the filter,
and every member of every group of a successful scan is at least
`min_size` and, when `max_size` is nonzero, at most `max_size`. -/
theorem c4_size_filter_semantics :
    (∀ (config : Cli) (s : Nat),
        file_passes_size_filter config s = true ↔
          (¬(config.exclude_empty = true ∧ s = 0) ∧ config.min_size ≤ s ∧
            (config.max_size = 0 ∨ s ≤ config.max_size)))
  ∧ (∀ (fuel : Nat) (config : Cli) (fs : Filesystem) (c : Candidate),
        c ∈ discover_files fuel config fs →
          file_passes_size_filter config c.meta.len = true)
  ∧ (∀ (fuel : Nat) (config : Cli) (fs : Filesystem) (r : ScanResult),
        scan fuel config fs = .ok r →
          ∀ g ∈ r.duplicate_groups, ∀ f ∈ g.files,
            config.min_size ≤ f.size ∧
              (0 < config.max_size → f.size ≤ config.max_size)) := by
  have hiff : ∀ (config : Cli) (s : Nat),
      file_passes_size_filter config s = true ↔
        (¬(config.exclude_empty = true ∧ s = 0) ∧ config.min_size ≤ s ∧
          (config.max_size = 0 ∨ s ≤ config.max_size)) := by
    intro config s
    unfold file_passes_size_filter
    split_ifs with h1 h2 h3
    · simp only [Bool.false_eq_true, false_iff]
      intro hcon
      exact hcon.1 h1
    · simp only [Bool.false_eq_true, false_iff]
      rintro ⟨-, hmin, -⟩
      omega
    · simp only [Bool.false_eq_true, false_iff]
      rintro ⟨-, -, hmax⟩
      omega
    · simp only [true_iff]
      exact ⟨h1, by omega, by omega⟩
  refine ⟨hiff, discover_files_passes, ?_⟩
  intro fuel config fs r h g hgmem f hf
  obtain ⟨hdg, -, -⟩ := scan_ok_fields h
  rw [hdg] at hgmem
  have hg2 : g ∈ group_duplicates (process_files (discover_files fuel config fs)) :=
    (List.mem_filter.1 hgmem).1
  have hfin : f ∈ process_files (discover_files fuel config fs) :=
    mem_files_of_mem_group hg2 hf
  obtain ⟨c, hc, rfl⟩ := mem_process_files hfin
  have hpass := discover_files_passes fuel config fs c hc
  obtain ⟨-, hmin, hmax⟩ := (hiff config c.meta.len).1 hpass
  constructor
  · show config.min_size ≤ c.meta.len
    exact hmin
  · intro hpos
    show c.meta.len ≤ config.max_size
    omega

/-- C4, witness: the filter semantics and the group-member bound
evaluated on the concrete duplicate-pair scan. -/
theorem c4_size_filter_semantics_witness :
    file_passes_size_filter cfgPlain 5 = true ∧
    (cfgPlain.min_size ≤ faRoot.size ∧
      (0 < cfgPlain.max_size → faRoot.size ≤ cfgPlain.max_size)) :=
  ⟨(c4_size_filter_semantics.1 cfgPlain 5).2 (by decide),
   c4_size_filter_semantics.2.2 10 cfgPlain fsDup resDup rfl
     gDup (by decide) faRoot (by decide)⟩

/-- C5: a scan fails (produces an error instead of a `ScanResult`)
exactly when the root does not exist or `max_size` is nonzero and
`min_size` exceeds it; and when it fails, the outcome is already
determined before any traversal — it equals the scan of an
entry-less filesystem with no traversal fuel. -/
theorem c5_scan_aborts_iff_invalid :
    ∀ (fuel : Nat) (config : Cli) (fs : Filesystem),
      ((scan fuel config fs).isOk = false ↔
        (fs.root_exists = false ∨
          (0 < config.max_size ∧ config.max_size < config.min_size)))
      ∧ ((scan fuel config fs).isOk = false →
          scan fuel config fs =
            scan 0 config { root_exists := fs.root_exists, root_entries := [] }) := by
  intro fuel config fs
  by_cases h1 : fs.root_exists = false
  · constructor
    · simp [scan, validate_config, h1, Except.isOk, Except.toBool]
    · intro _
      simp [scan, validate_config, h1]
  · by_cases h2 : 0 < config.max_size ∧ config.max_size < config.min_size
    · constructor
      · simp [scan, validate_config, h1, h2, Except.isOk, Except.toBool]
      · intro _
        simp [scan, validate_config, h1, h2]
    · constructor
      · simp [scan, validate_config, h1, h2, Except.isOk, Except.toBool]
      · intro hf
        exfalso
        simp [scan, validate_config, h1, h2, Except.isOk, Except.toBool] at hf

/-- C5, witness: scanning a missing root fails, and the failure equals
the traversal-free scan. -/
theorem c5_scan_aborts_iff_invalid_witness :
    (scan 7 cfgPlain fsNoRoot).isOk = false ∧
    scan 7 cfgPlain fsNoRoot =
      scan 0 cfgPlain { root_exists := fsNoRoot.root_exists, root_entries := [] } := by
  have h := c5_scan_aborts_iff_invalid 7 cfgPlain fsNoRoot
  exact ⟨h.1.mpr (Or.inl rfl), h.2 (h.1.mpr (Or.inl rfl))⟩

/-- C6: every produced group satisfies `total_size = size * n` and
`wasted_space = size * (n - 1)` for `n > 1` (0 otherwise), and a
successful scan's `total_wasted_space` equals the sum of
`wasted_space` over the groups reported in the result (the pre-filter
sum agrees because discarded singleton groups waste 0). -/
theorem c6_group_arithmetic :
    (∀ (files : List FileInfo), ∀ g ∈ group_duplicates files,
        g.total_size = g.size * g.files.length ∧
        g.wasted_space =
          (if 1 < g.files.length then g.size * (g.files.length - 1) else 0))
  ∧ (∀ (fuel : Nat) (config : Cli) (fs : Filesystem) (r : ScanResult),
        scan fuel config fs = .ok r →
        r.total_wasted_space =
          (r.duplicate_groups.map (fun g => g.wasted_space)).sum) := by
  constructor
  · intro files g hg
    obtain ⟨h, -, rfl⟩ := mem_group_duplicates.1 hg
    exact ⟨mkGroup_total_size h _, mkGroup_wasted_space h _⟩
  · intro fuel config fs r h
    obtain ⟨hdg, -, hws⟩ := scan_ok_fields h
    rw [hws, hdg]
    refine (sum_wasted_filter _ ?_).symm
    intro g hg hle
    obtain ⟨hk, -, rfl⟩ := mem_group_duplicates.1 hg
    rw [mkGroup_wasted_space]
    exact if_neg (by omega)

/-- C6, witness: the arithmetic evaluated on the concrete duplicate
pair. -/
theorem c6_group_arithmetic_witness :
    gDup.total_size = gDup.size * gDup.files.length ∧
    resDup.total_wasted_space =
      (resDup.duplicate_groups.map (fun g => g.wasted_space)).sum :=
  ⟨(c6_group_arithmetic.1 [faRoot, fbRoot] gDup (by decide)).1,
   c6_group_arithmetic.2 10 cfgPlain fsDup resDup rfl⟩

/-- C7: every group reported in a successful scan's result has at least
two member files (singleton digests are filtered out). -/
theorem c7_groups_have_at_least_two_files :
    ∀ (fuel : Nat) (config : Cli) (fs : Filesystem) (r : ScanResult),
      scan fuel config fs = .ok r →
      ∀ g ∈ r.duplicate_groups, 2 ≤ g.files.length := by
  intro fuel config fs r h g hg
  obtain ⟨hdg, -, -⟩ := scan_ok_fields h
  rw [hdg] at hg
  have h2 := (List.mem_filter.1 hg).2
  simp only [decide_eq_true_eq] at h2
  omega

/-- C7, witness: the bound evaluated on the concrete duplicate pair. -/
theorem c7_groups_have_at_least_two_files_witness : 2 ≤ gDup.files.length :=
  c7_groups_have_at_least_two_files 10 cfgPlain fsDup resDup rfl gDup (by decide)

/-- C8: within every produced group the member sequence is sorted by
modified time ascending, and the first member's modified time is a
lower bound for the whole group. -/
theorem c8_files_sorted_by_modified :
    ∀ (files : List FileInfo), ∀ g ∈ group_duplicates files,
      List.Sorted modLe g.files ∧
      (∀ hd, g.files.head? = some hd →
        ∀ f ∈ g.files, hd.modified ≤ f.modified) := by
  intro files g hg
  obtain ⟨h, -, rfl⟩ := mem_group_duplicates.1 hg
  rw [mkGroup_files]
  exact ⟨sortByModified_sorted _,
    fun hd hhd => sorted_head_le (sortByModified_sorted _) hhd⟩

/-- C8, witness: sortedness evaluated on the concrete duplicate
pair. -/
theorem c8_files_sorted_by_modified_witness :
    List.Sorted modLe gDup.files ∧ faRoot.modified ≤ fbRoot.modified :=
  ⟨(c8_files_sorted_by_modified [faRoot, fbRoot] gDup (by decide)).1,
   (c8_files_sorted_by_modified [faRoot, fbRoot] gDup (by decide)).2
     faRoot (by decide) fbRoot (by decide)⟩

/-- C9, counterexample: two records sharing a digest with equal
modified times but different sizes (a digest collision with a tie).
Swapping the input order swaps which record the stable sort leaves in
front, so the two runs produce groups with different `size` values
(1 versus 2) — the claim's unconditional "same size, total_size and
wasted_space values" fails. -/
theorem c9_counterexample :
    [fColA, fColB].Perm [fColB, fColA] ∧
    (group_duplicates [fColA, fColB]).map (fun g => g.size) = [1] ∧
    (group_duplicates [fColB, fColA]).map (fun g => g.size) = [2] := by
  refine ⟨by decide, by decide, by decide⟩

/-- C9, amended: for permuted inputs the produced digests agree up to
permutation and matching groups have permuted member lists; and when,
within each digest bucket, modified times are pairwise distinct
(records sharing a digest never share a modified time), matching
groups are fully equal — same member order, size, total_size and
wasted_space. -/
theorem c9_grouping_order_independent :
    ∀ (l1 l2 : List FileInfo), l1.Perm l2 →
      ((group_duplicates l1).map (fun g => g.hash)).Perm
        ((group_duplicates l2).map (fun g => g.hash))
      ∧ (∀ g1 ∈ group_duplicates l1, ∀ g2 ∈ group_duplicates l2,
          g1.hash = g2.hash → g1.files.Perm g2.files)
      ∧ (l1.Pairwise (fun a b => a.hash = b.hash → a.modified ≠ b.modified) →
          ∀ g1 ∈ group_duplicates l1, ∀ g2 ∈ group_duplicates l2,
            g1.hash = g2.hash → g1 = g2) := by
  intro l1 l2 hp
  refine ⟨?_, ?_, ?_⟩
  · rw [group_duplicates_hashes, group_duplicates_hashes]
    exact (hp.map (fun f => f.hash)).dedup
  · intro g1 hg1 g2 hg2 hh
    obtain ⟨h1, -, rfl⟩ := mem_group_duplicates.1 hg1
    obtain ⟨h2, -, rfl⟩ := mem_group_duplicates.1 hg2
    rw [mkGroup_hash, mkGroup_hash] at hh
    subst hh
    rw [mkGroup_files, mkGroup_files]
    exact (sortByModified_perm _).trans
      ((hp.filter _).trans (sortByModified_perm _).symm)
  · intro hdist g1 hg1 g2 hg2 hh
    obtain ⟨h1, -, rfl⟩ := mem_group_duplicates.1 hg1
    obtain ⟨h2, -, rfl⟩ := mem_group_duplicates.1 hg2
    rw [mkGroup_hash, mkGroup_hash] at hh
    subst hh
    refine mkGroup_congr h1 ?_
    refine sortByModified_eq_of_perm (hp.filter _) ?_
    have hsub : (l1.filter (fun f => f.hash = h1)).Pairwise
        (fun a b => a.hash = b.hash → a.modified ≠ b.modified) :=
      List.Pairwise.sublist (List.filter_sublist l1) hdist
    refine hsub.imp_of_mem ?_
    intro a b ha hb hr
    have hah : a.hash = h1 := by
      simpa using (List.mem_filter.1 ha).2
    have hbh : b.hash = h1 := by
      simpa using (List.mem_filter.1 hb).2
    exact hr (hah.trans hbh.symm)

/-- C9, witness: the amended claim applied to a swapped pair with
distinct modified times. -/
theorem c9_grouping_order_independent_witness :
    ((group_duplicates [fD1, fD2]).map (fun g => g.hash)).Perm
      ((group_duplicates [fD2, fD1]).map (fun g => g.hash)) ∧ gD = gD := by
  have h := c9_grouping_order_independent [fD1, fD2] [fD2, fD1] (by decide)
  exact ⟨h.1, h.2.2 (by decide) gD (by decide) gD (by decide) rfl⟩

/-- C10: a readable, hashable file whose modified time cannot be read
still yields a record — with the Unix epoch substituted — and since the
epoch precedes every positive timestamp, such a record becomes the
group's first (canonical) member whenever every other member has a
normal (post-epoch) timestamp. -/
theorem c10_missing_mtime_epoch_first :
    (∀ (p : String) (m : RawMetadata) (d : String), m.modified = none →
        from_path p (some m) (some d) =
          some { path := p, size := m.len, hash := d,
                 modified := unixEpoch, created := m.created })
  ∧ (∀ (files : List FileInfo), ∀ g ∈ group_duplicates files, ∀ f ∈ g.files,
        f.modified = unixEpoch →
        (∀ f' ∈ g.files, f' ≠ f → unixEpoch < f'.modified) →
        g.files.head? = some f) := by
  constructor
  · intro p m d hm
    simp [from_path, hm]
  · intro files g hg f hf hepoch hother
    obtain ⟨h, -, rfl⟩ := mem_group_duplicates.1 hg
    rw [mkGroup_files] at hf hother ⊢
    cases hhd : (sortByModified (files.filter (fun x => x.hash = h))).head? with
    | none =>
      rw [List.head?_eq_none_iff] at hhd
      rw [hhd] at hf
      cases hf
    | some hd =>
      have hdmem := mem_of_head?_eq hhd
      have hle := sorted_head_le (sortByModified_sorted _) hhd f hf
      by_cases hdf : hd = f
      · rw [hdf]
      · exfalso
        have hgt := hother hd hdmem hdf
        rw [hepoch] at hle
        simp only [unixEpoch] at hle hgt
        omega

/-- C10, witness: the epoch substitution and canonical-first property
evaluated on a concrete pair. -/
theorem c10_missing_mtime_epoch_first_witness :
    from_path "p" (some ⟨5, none, none⟩) (some "hp") =
      some { path := "p", size := 5, hash := "hp",
             modified := unixEpoch, created := none } ∧
    gE.files.head? = some fE1 :=
  ⟨c10_missing_mtime_epoch_first.1 "p" ⟨5, none, none⟩ "hp" rfl,
   c10_missing_mtime_epoch_first.2 [fE2, fE1] gE (by decide) fE1 (by decide)
     rfl (by decide)⟩
